import Mathlib

/-!
Verification development for the UmaScrape repository.

The repository is a full-stack scraper: a Flask backend (race catalog, page
fetcher, markup parser, race matcher, result assembler) and a React frontend
(api service layer, useApiCall hook, display components).  The backend's
Python sources are not in the snapshot; the backend pipeline components are
therefore modelled from the specification, and each such definition says so
in its doc comment.  The frontend sources (api.js, RankDisplay.jsx with the
useApiCall hook, EventList / RaceList / ErrorDisplay components, App.jsx)
are embedded directly.
-/

namespace UmaScrape

/-- Boolean prefix test on character lists (an executable form of
List.IsPrefix used by the substring scan below). -/
def charsPrefix : List Char → List Char → Bool
  | [], _ => true
  | _ :: _, [] => false
  | a :: as, b :: bs => a = b && charsPrefix as bs

/-- Boolean substring scan on character lists: does the needle occur as a
contiguous run of the haystack? -/
def charsContain (needle : List Char) : List Char → Bool
  | [] => charsPrefix needle []
  | b :: bs => charsPrefix needle (b :: bs) || charsContain needle bs

/-- Lower-case a string character by character (ASCII case folding, the
comparison JavaScript's toLowerCase performs on these inputs). -/
def lowerChars (s : String) : List Char :=
  s.data.map Char.toLower

/-- Upper-case a string character by character (the embedding of
JavaScript's toUpperCase on ASCII rank tokens). -/
def upperStr (s : String) : String :=
  ⟨s.data.map Char.toUpper⟩

/-- Case-insensitive substring test.  Modelled from the spec: the Race
Matcher "tests whether the race's name appears as a case-insensitive
substring of the search text"; substring-based, not tokenized. -/
def occursIn (needle hay : String) : Bool :=
  charsContain (lowerChars needle) (lowerChars hay)

/-- Catalog entry.  Modelled from the spec (the static race catalog lives in
the missing backend): name, period, tier, distance; the frontend RaceList
component consumes these fields as strings. -/
structure RaceDescriptor where
  name : String
  period : String
  tier : String
  distance : String
deriving DecidableEq, Repr

/-- Training-event record extracted by the parser: a mandatory name plus
condition and effect text (the frontend field event_name is the name). -/
structure EventRecord where
  name : String
  conditions : String
  effects : String
deriving DecidableEq, Repr

/-- A matched race annotated with the event that mentioned it. -/
structure RaceMatch where
  race : RaceDescriptor
  eventName : String
deriving DecidableEq, Repr

/-- Search text of one event.  Modelled from the spec: "concatenate its
name, conditions, and effects into one search text" (scenario A shows the
three parts joined by single spaces). -/
def searchText (e : EventRecord) : String :=
  e.name ++ " " ++ e.conditions ++ " " ++ e.effects

/-- Append a match unless an equal one is already accumulated.  Modelled
from the spec: "append a RaceMatch(race, event.name) unless an equal
RaceMatch already exists in the accumulated result". -/
def insertNew (acc : List RaceMatch) (m : RaceMatch) : List RaceMatch :=
  if m ∈ acc then acc else acc ++ [m]

/-- Modelled from the spec: one event's pass over the catalog in catalog
order, appending deduplicated hits to the accumulator. -/
def matchEvent (catalog : List RaceDescriptor) (e : EventRecord)
    (acc : List RaceMatch) : List RaceMatch :=
  catalog.foldl
    (fun a r => if occursIn r.name (searchText e) then insertNew a ⟨r, e.name⟩ else a)
    acc

/-- Modelled from the spec: the Race Matcher's match(events, catalog),
iterating events in page order starting from an empty result. -/
def matchRaces (events : List EventRecord) (catalog : List RaceDescriptor) :
    List RaceMatch :=
  events.foldl (fun acc e => matchEvent catalog e acc) []

/-- Generalisation of matchRaces to an arbitrary starting accumulator, used
to reason about the event-order fold. -/
def matchRacesFrom (events : List EventRecord) (catalog : List RaceDescriptor)
    (acc : List RaceMatch) : List RaceMatch :=
  events.foldl (fun a e => matchEvent catalog e a) acc

theorem matchRaces_eq_from (events : List EventRecord) (catalog : List RaceDescriptor) :
    matchRaces events catalog = matchRacesFrom events catalog [] := rfl

theorem mem_insertNew (acc : List RaceMatch) (m x : RaceMatch) :
    x ∈ insertNew acc m ↔ x ∈ acc ∨ x = m := by
  unfold insertNew
  by_cases h : m ∈ acc
  · rw [if_pos h]
    exact ⟨Or.inl, fun hx => hx.elim id fun e => e ▸ h⟩
  · rw [if_neg h]
    simp [List.mem_append]

theorem nodup_insertNew (acc : List RaceMatch) (m : RaceMatch) (h : acc.Nodup) :
    (insertNew acc m).Nodup := by
  unfold insertNew
  by_cases hm : m ∈ acc
  · rw [if_pos hm]; exact h
  · rw [if_neg hm, List.nodup_append]
    refine ⟨h, List.nodup_singleton m, fun x hx hx2 => ?_⟩
    simp only [List.mem_singleton] at hx2
    exact hm (hx2 ▸ hx)

theorem matchEvent_cons (r : RaceDescriptor) (rs : List RaceDescriptor)
    (e : EventRecord) (acc : List RaceMatch) :
    matchEvent (r :: rs) e acc =
      matchEvent rs e
        (if occursIn r.name (searchText e) then insertNew acc ⟨r, e.name⟩ else acc) := rfl

theorem mem_matchEvent (catalog : List RaceDescriptor) (e : EventRecord)
    (acc : List RaceMatch) (x : RaceMatch) :
    x ∈ matchEvent catalog e acc ↔
      x ∈ acc ∨ ∃ r, r ∈ catalog ∧ occursIn r.name (searchText e) = true ∧
        x = ⟨r, e.name⟩ := by
  induction catalog generalizing acc with
  | nil => simp [matchEvent]
  | cons r rs ih =>
    rw [matchEvent_cons, ih]
    by_cases h : occursIn r.name (searchText e) = true
    · rw [if_pos h]
      constructor
      · rintro (hm | ⟨r', hr', hh, rfl⟩)
        · rcases (mem_insertNew acc ⟨r, e.name⟩ x).mp hm with hx | rfl
          · exact Or.inl hx
          · exact Or.inr ⟨r, List.mem_cons_self r rs, h, rfl⟩
        · exact Or.inr ⟨r', List.mem_cons_of_mem r hr', hh, rfl⟩
      · rintro (hx | ⟨r', hr', hh, rfl⟩)
        · exact Or.inl ((mem_insertNew acc ⟨r, e.name⟩ x).mpr (Or.inl hx))
        · rcases List.mem_cons.mp hr' with rfl | hr'
          · exact Or.inl ((mem_insertNew acc ⟨r', e.name⟩ _).mpr (Or.inr rfl))
          · exact Or.inr ⟨r', hr', hh, rfl⟩
    · rw [if_neg h]
      constructor
      · rintro (hx | ⟨r', hr', hh, rfl⟩)
        · exact Or.inl hx
        · exact Or.inr ⟨r', List.mem_cons_of_mem r hr', hh, rfl⟩
      · rintro (hx | ⟨r', hr', hh, rfl⟩)
        · exact Or.inl hx
        · rcases List.mem_cons.mp hr' with rfl | hr'
          · exact absurd hh h
          · exact Or.inr ⟨r', hr', hh, rfl⟩

theorem nodup_matchEvent (catalog : List RaceDescriptor) (e : EventRecord)
    (acc : List RaceMatch) (h : acc.Nodup) : (matchEvent catalog e acc).Nodup := by
  induction catalog generalizing acc with
  | nil => exact h
  | cons r rs ih =>
    rw [matchEvent_cons]
    by_cases hc : occursIn r.name (searchText e) = true
    · rw [if_pos hc]; exact ih _ (nodup_insertNew acc ⟨r, e.name⟩ h)
    · rw [if_neg hc]; exact ih _ h

theorem matchRacesFrom_cons (e : EventRecord) (es : List EventRecord)
    (catalog : List RaceDescriptor) (acc : List RaceMatch) :
    matchRacesFrom (e :: es) catalog acc =
      matchRacesFrom es catalog (matchEvent catalog e acc) := rfl

theorem mem_matchRacesFrom (events : List EventRecord) (catalog : List RaceDescriptor)
    (acc : List RaceMatch) (x : RaceMatch) :
    x ∈ matchRacesFrom events catalog acc ↔
      x ∈ acc ∨ ∃ e, e ∈ events ∧ ∃ r, r ∈ catalog ∧
        occursIn r.name (searchText e) = true ∧ x = ⟨r, e.name⟩ := by
  induction events generalizing acc with
  | nil => simp [matchRacesFrom]
  | cons e es ih =>
    rw [matchRacesFrom_cons, ih, mem_matchEvent]
    constructor
    · rintro ((hx | ⟨r, hr, hh, rfl⟩) | ⟨e', he', hrest⟩)
      · exact Or.inl hx
      · exact Or.inr ⟨e, List.mem_cons_self e es, r, hr, hh, rfl⟩
      · exact Or.inr ⟨e', List.mem_cons_of_mem e he', hrest⟩
    · rintro (hx | ⟨e', he', hrest⟩)
      · exact Or.inl (Or.inl hx)
      · rcases List.mem_cons.mp he' with rfl | he'
        · exact Or.inl (Or.inr hrest)
        · exact Or.inr ⟨e', he', hrest⟩

theorem nodup_matchRacesFrom (events : List EventRecord) (catalog : List RaceDescriptor)
    (acc : List RaceMatch) (h : acc.Nodup) : (matchRacesFrom events catalog acc).Nodup := by
  induction events generalizing acc with
  | nil => exact h
  | cons e es ih =>
    rw [matchRacesFrom_cons]
    exact ih _ (nodup_matchEvent catalog e acc h)

theorem raceMatch_eq_of_fields (a b : RaceMatch)
    (hr : a.race = b.race) (he : a.eventName = b.eventName) : a = b := by
  cases a; cases b; simp_all

/-- C1: the Race Matcher visits events in page order and races in catalog
order, testing the race name as a case-insensitive substring of the
concatenated event text; a hit is recorded as RaceMatch(race, event.name)
unless the equal pair is already present, so the output is duplicate-free
(at most one entry per (race, eventName) pair), membership is exactly the
set of (catalog race, event) substring hits, and one race mentioned in two
differently named events yields two distinct matches. -/
theorem matchRaces_characterization (events : List EventRecord)
    (catalog : List RaceDescriptor) :
    (matchRaces events catalog).Nodup ∧
    (∀ x : RaceMatch, x ∈ matchRaces events catalog ↔
      ∃ e, e ∈ events ∧ ∃ r, r ∈ catalog ∧
        occursIn r.name (searchText e) = true ∧ x = ⟨r, e.name⟩) ∧
    (∀ e₁ e₂ : EventRecord, ∀ r : RaceDescriptor,
      e₁ ∈ events → e₂ ∈ events → r ∈ catalog → e₁.name ≠ e₂.name →
      occursIn r.name (searchText e₁) = true →
      occursIn r.name (searchText e₂) = true →
      RaceMatch.mk r e₁.name ∈ matchRaces events catalog ∧
      RaceMatch.mk r e₂.name ∈ matchRaces events catalog ∧
      RaceMatch.mk r e₁.name ≠ RaceMatch.mk r e₂.name) := by
  rw [matchRaces_eq_from]
  refine ⟨nodup_matchRacesFrom events catalog [] List.nodup_nil, ?_, ?_⟩
  · intro x
    rw [mem_matchRacesFrom]
    simp
  · intro e₁ e₂ r he₁ he₂ hr hne hh₁ hh₂
    refine ⟨?_, ?_, ?_⟩
    · exact (mem_matchRacesFrom events catalog [] _).mpr
        (Or.inr ⟨e₁, he₁, r, hr, hh₁, rfl⟩)
    · exact (mem_matchRacesFrom events catalog [] _).mpr
        (Or.inr ⟨e₂, he₂, r, hr, hh₂, rfl⟩)
    · intro hcontra
      exact hne (congrArg RaceMatch.eventName hcontra)

/-- Witness for C1 at a concrete input: a catalog race mentioned in two
differently named events yields two distinct matches. -/
theorem matchRaces_characterization_witness :
    RaceMatch.mk ⟨"Tokyo Sprint", "early", "B", "short"⟩ "First" ∈
      matchRaces
        [⟨"First", "", "Run Tokyo Sprint"⟩, ⟨"Second", "", "TOKYO SPRINT again"⟩]
        [⟨"Tokyo Sprint", "early", "B", "short"⟩] ∧
    RaceMatch.mk ⟨"Tokyo Sprint", "early", "B", "short"⟩ "Second" ∈
      matchRaces
        [⟨"First", "", "Run Tokyo Sprint"⟩, ⟨"Second", "", "TOKYO SPRINT again"⟩]
        [⟨"Tokyo Sprint", "early", "B", "short"⟩] ∧
    RaceMatch.mk ⟨"Tokyo Sprint", "early", "B", "short"⟩ "First" ≠
      RaceMatch.mk ⟨"Tokyo Sprint", "early", "B", "short"⟩ "Second" :=
  (matchRaces_characterization
      [⟨"First", "", "Run Tokyo Sprint"⟩, ⟨"Second", "", "TOKYO SPRINT again"⟩]
      [⟨"Tokyo Sprint", "early", "B", "short"⟩]).2.2
    ⟨"First", "", "Run Tokyo Sprint"⟩ ⟨"Second", "", "TOKYO SPRINT again"⟩
    ⟨"Tokyo Sprint", "early", "B", "short"⟩
    (by decide) (by decide) (by decide) (by decide) (by decide) (by decide)

/-- C2: the Matcher is a pure function, so running it twice on the same
(events, catalog) input yields list-equal output, and that output never
contains two entries sharing both race and eventName. -/
theorem matchRaces_idempotent (events : List EventRecord)
    (catalog : List RaceDescriptor) :
    matchRaces events catalog = matchRaces events catalog ∧
    List.Pairwise
      (fun a b : RaceMatch => ¬(a.race = b.race ∧ a.eventName = b.eventName))
      (matchRaces events catalog) := by
  refine ⟨rfl, ?_⟩
  have h : (matchRaces events catalog).Nodup := by
    rw [matchRaces_eq_from]
    exact nodup_matchRacesFrom events catalog [] List.nodup_nil
  exact h.imp fun hne hab => hne (raceMatch_eq_of_fields _ _ hab.1 hab.2)

/-- JavaScript's or-else on an optional string, as used by the frontend:
both an absent value and the empty string are falsy, so either selects the
default. -/
def jsOr (o : Option String) (d : String) : String :=
  match o with
  | some s => if s = "" then d else s
  | none => d

/-- Configuration of the axios client created in api.js. -/
structure AxiosConfig where
  baseURL : String
  timeout : Nat
  contentType : String
deriving DecidableEq, Repr

/-- Embedding of the axios client from api.js: baseURL is VITE_API_URL or
the localhost default, timeout is 30000 ms, and the content type header is
application/json. -/
def api (envApiUrl : Option String) : AxiosConfig :=
  { baseURL := jsOr envApiUrl "http://localhost:5000/api"
    timeout := 30000
    contentType := "application/json" }

/-- A request issued through the axios client: the client's base address
plus the path passed to api.get. -/
structure ApiRequest where
  baseURL : String
  path : String
deriving DecidableEq, Repr

/-- Embedding of the request fetchScrapedData issues: api.get of /scrape.
The function is declared with no parameter; App.jsx passes the search query
as an argument, which the body never reads, so the identifier argument is
accepted here exactly as JavaScript accepts it — and never used. -/
def fetchScrapedDataRequest (envApiUrl : Option String)
    (identifier : String) : ApiRequest :=
  { baseURL := (api envApiUrl).baseURL, path := "/scrape" }

/-- Embedding of the request checkHealth issues: api.get of /health through
the same client. -/
def checkHealthRequest (envApiUrl : Option String) : ApiRequest :=
  { baseURL := (api envApiUrl).baseURL, path := "/health" }

/-- Outcome of the axios GET as fetchScrapedData observes it: a success
response carrying the JSON body's success flag, data payload and optional
error string; an error response carrying its body's optional error string;
or no response at all. -/
inductive HttpOutcome (α : Type) where
  | ok (success : Bool) (payload : α) (error : Option String)
  | errResponse (error : Option String)
  | noResponse
deriving DecidableEq, Repr

/-- Embedding of fetchScrapedData's value behaviour from api.js.  On a
success response with success true it returns response.data.data; with
success false it throws Error(data.error or the fixed fallback) — that
throw is re-caught by the surrounding catch block, whose final branch
rethrows an Error with the same message, so the net effect is the message
computed here; on an error response it throws the response body's error or
the server-error fallback; with no response it throws the fixed
no-response message. -/
def fetchScrapedData {α : Type} : HttpOutcome α → Except String α
  | .ok true d _ => .ok d
  | .ok false _ e => .error (jsOr e "Failed to fetch data")
  | .errResponse e => .error (jsOr e "Server error")
  | .noResponse => .error "No response from server. Is the backend running?"

/-- State managed by the useApiCall hook: data, loading and error. -/
structure ApiState (α : Type) where
  data : Option α
  loading : Bool
  error : Option String
deriving DecidableEq, Repr

/-- Initial state of useApiCall: data null, not loading, no error. -/
def initState (α : Type) : ApiState α :=
  ⟨none, false, none⟩

/-- Error message stored on failure: err.message with the fixed fallback
for a falsy message. -/
def errorMessageOf (msg : String) : String :=
  jsOr (some msg) "An unexpected error occurred"

/-- First setState inside execute: loading set, error cleared, previous
data retained. -/
def execPending {α : Type} (s : ApiState α) : ApiState α :=
  ⟨s.data, true, none⟩

/-- Second setState inside execute, by outcome of the wrapped call: on
success the result with no error, on failure null data and the message. -/
def execDone {α : Type} : Except String α → ApiState α
  | .ok d => ⟨some d, false, none⟩
  | .error m => ⟨none, false, some (errorMessageOf m)⟩

instance {ε α : Type} [DecidableEq ε] [DecidableEq α] : DecidableEq (Except ε α)
  | .ok a, .ok b =>
    if h : a = b then isTrue (by rw [h])
    else isFalse (by intro he; cases he; exact h rfl)
  | .ok _, .error _ => isFalse (by intro h; cases h)
  | .error _, .ok _ => isFalse (by intro h; cases h)
  | .error e, .error f =>
    if h : e = f then isTrue (by rw [h])
    else isFalse (by intro he; cases he; exact h rfl)

/-- An operation offered by the hook: execute (with the outcome of the
wrapped async function) or reset. -/
inductive ApiOp (α : Type) where
  | exec (outcome : Except String α)
  | reset
deriving DecidableEq, Repr

/-- The states an operation sets, in the order it sets them. -/
def applyOpStates {α : Type} (s : ApiState α) : ApiOp α → List (ApiState α)
  | .exec o => [execPending s, execDone o]
  | .reset => [initState α]

/-- The state an operation leaves behind. -/
def applyOpFinal {α : Type} (s : ApiState α) : ApiOp α → ApiState α
  | .exec o => execDone o
  | .reset => initState α

/-- All states set while running a sequence of operations from a start
state. -/
def traceFrom {α : Type} (s : ApiState α) : List (ApiOp α) → List (ApiState α)
  | [] => []
  | op :: ops => applyOpStates s op ++ traceFrom (applyOpFinal s op) ops

/-- Every state the hook passes through for a given operation sequence,
starting from the initial state. -/
def reachableStates {α : Type} (ops : List (ApiOp α)) : List (ApiState α) :=
  initState α :: traceFrom (initState α) ops

/-- The hook's state after a sequence of operations completes. -/
def finalAfter {α : Type} (ops : List (ApiOp α)) : ApiState α :=
  ops.foldl applyOpFinal (initState α)

/-- C3 (refuted by the code): the request fetchScrapedData issues is a GET
of /scrape on the client's base address with no query parameter, so any two
supplied identifiers produce the identical request — the identifier the
caller supplies is never incorporated. -/
theorem fetchScrapedDataRequest_const :
    (∀ (envApiUrl : Option String) (i₁ i₂ : String),
      fetchScrapedDataRequest envApiUrl i₁ = fetchScrapedDataRequest envApiUrl i₂) ∧
    fetchScrapedDataRequest none "Agnes Tachyon" =
      fetchScrapedDataRequest none "Haru Urara" ∧
    fetchScrapedDataRequest none "Agnes Tachyon" =
      ⟨"http://localhost:5000/api", "/scrape"⟩ :=
  ⟨fun _ _ _ => rfl, rfl, rfl⟩

/-- C4: fetchScrapedData returns the scraped payload exactly when the
backend response is a success response whose body has success true; every
other outcome (success flag false, error response, no response) produces a
thrown Error carrying a single message, never an error-shaped normal
result. -/
theorem fetchScrapedData_success_iff {α : Type} (o : HttpOutcome α) :
    ((∃ d, fetchScrapedData o = Except.ok d) ↔
      ∃ d e, o = HttpOutcome.ok true d e) ∧
    (∀ d e, o = HttpOutcome.ok true d e → fetchScrapedData o = Except.ok d) ∧
    ((∀ d e, o ≠ HttpOutcome.ok true d e) →
      ∃ m, fetchScrapedData o = Except.error m) := by
  cases o with
  | ok s d e =>
    cases s
    · refine ⟨?_, ?_, fun _ => ⟨_, rfl⟩⟩
      · constructor
        · rintro ⟨d', hd⟩; cases hd
        · rintro ⟨d', e', h⟩
          injection h with hs _ _
          cases hs
      · intro d' e' h
        injection h with hs _ _
        cases hs
    · refine ⟨?_, ?_, ?_⟩
      · exact ⟨fun _ => ⟨d, e, rfl⟩, fun _ => ⟨d, rfl⟩⟩
      · intro d' e' h
        injection h with _ hd _
        rw [hd]; rfl
      · intro h
        exact absurd rfl (h d e)
  | errResponse e =>
    refine ⟨?_, ?_, fun _ => ⟨_, rfl⟩⟩
    · constructor
      · rintro ⟨d', hd⟩; cases hd
      · rintro ⟨d', e', h⟩; cases h
    · intro d' e' h; cases h
  | noResponse =>
    refine ⟨?_, ?_, fun _ => ⟨_, rfl⟩⟩
    · constructor
      · rintro ⟨d', hd⟩; cases hd
      · rintro ⟨d', e', h⟩; cases h
    · intro d' e' h; cases h

/-- Witness for C4 at a concrete outcome: a success response with success
true returns its payload. -/
theorem fetchScrapedData_success_iff_witness :
    fetchScrapedData (HttpOutcome.ok true (7 : Nat) none) = Except.ok 7 :=
  (fetchScrapedData_success_iff (HttpOutcome.ok true (7 : Nat) none)).2.1 7 none rfl

/-- C8: the axios client through which both frontend requests travel is
configured with the finite 30000 ms timeout, whatever the environment's
base address, and fetchScrapedData and checkHealth both issue their
requests on that client's base address. -/
theorem api_timeout_bounded (envApiUrl : Option String) (identifier : String) :
    (api envApiUrl).timeout = 30000 ∧
    0 < (api envApiUrl).timeout ∧
    (fetchScrapedDataRequest envApiUrl identifier).baseURL = (api envApiUrl).baseURL ∧
    (checkHealthRequest envApiUrl).baseURL = (api envApiUrl).baseURL :=
  ⟨rfl, Nat.succ_pos _, rfl, rfl⟩

/-- C5: a failed execute leaves the hook with data null, loading false, and
error set to the failure message (with the fixed fallback exactly when the
thrown message is empty) — no partial result survives alongside the
error. -/
theorem execute_failure_state {α : Type} (s : ApiState α) (m : String) :
    applyOpFinal s (ApiOp.exec (Except.error m)) =
      ⟨none, false, some (errorMessageOf m)⟩ ∧
    (m ≠ "" → errorMessageOf m = m) := by
  refine ⟨rfl, fun h => ?_⟩
  show (if m = "" then "An unexpected error occurred" else m) = m
  rw [if_neg h]

/-- Witness for C5 at a concrete failure: executing a call that throws
"boom" ends in the state (null, not loading, error "boom"). -/
theorem execute_failure_state_witness :
    applyOpFinal (initState Nat) (ApiOp.exec (Except.error "boom")) =
      ⟨none, false, some "boom"⟩ := by
  have h := execute_failure_state (initState Nat) "boom"
  have h2 := h.2 (by decide)
  rw [h.1, h2]

theorem stateSafe_execPending {α : Type} (s : ApiState α) :
    ((execPending s).data = none ∨ (execPending s).error = none) ∧
    ((execPending s).error ≠ none → (execPending s).loading = false) :=
  ⟨Or.inr rfl, fun h => absurd rfl h⟩

theorem stateSafe_execDone {α : Type} (o : Except String α) :
    ((execDone o).data = none ∨ (execDone o).error = none) ∧
    ((execDone o).error ≠ none → (execDone o).loading = false) := by
  cases o with
  | ok d => exact ⟨Or.inr rfl, fun _ => rfl⟩
  | error m => exact ⟨Or.inl rfl, fun _ => rfl⟩

theorem stateSafe_init (α : Type) :
    ((initState α).data = none ∨ (initState α).error = none) ∧
    ((initState α).error ≠ none → (initState α).loading = false) :=
  ⟨Or.inl rfl, fun _ => rfl⟩

theorem stateSafe_trace {α : Type} (ops : List (ApiOp α)) (s : ApiState α) :
    ∀ t : ApiState α, t ∈ traceFrom s ops →
      (t.data = none ∨ t.error = none) ∧ (t.error ≠ none → t.loading = false) := by
  induction ops generalizing s with
  | nil => intro t ht; cases ht
  | cons op ops ih =>
    intro t ht
    rw [traceFrom] at ht
    rcases List.mem_append.mp ht with h1 | h2
    · cases op with
      | exec o =>
        rcases List.mem_cons.mp h1 with rfl | h1
        · exact stateSafe_execPending s
        · rcases List.mem_cons.mp h1 with rfl | h1
          · exact stateSafe_execDone o
          · cases h1
      | reset =>
        rcases List.mem_cons.mp h1 with rfl | h1
        · exact stateSafe_init α
        · cases h1
    · exact ih (applyOpFinal s op) t h2

theorem stateIdle_execDone {α : Type} (o : Except String α) :
    (((execDone o).data ≠ none ∨ (execDone o).error ≠ none) →
      (execDone o).loading = false) ∧
    ((execDone o).data = none ∨ (execDone o).error = none) := by
  cases o with
  | ok d => exact ⟨fun _ => rfl, Or.inr rfl⟩
  | error m => exact ⟨fun _ => rfl, Or.inl rfl⟩

theorem stateIdle_foldl {α : Type} (ops : List (ApiOp α)) (s : ApiState α)
    (hs : ((s.data ≠ none ∨ s.error ≠ none) → s.loading = false) ∧
      (s.data = none ∨ s.error = none)) :
    ((ops.foldl applyOpFinal s).data ≠ none ∨
        (ops.foldl applyOpFinal s).error ≠ none →
      (ops.foldl applyOpFinal s).loading = false) ∧
    ((ops.foldl applyOpFinal s).data = none ∨
      (ops.foldl applyOpFinal s).error = none) := by
  induction ops generalizing s with
  | nil => exact hs
  | cons op ops ih =>
    rw [List.foldl_cons]
    apply ih
    cases op with
    | exec o => exact stateIdle_execDone o
    | reset => exact ⟨fun _ => rfl, Or.inl rfl⟩

/-- C9 counterexample: starting a second execute after a successful one
passes through the in-flight state that retains the previous data with
loading true, so a reachable state has non-null data while loading is not
false. -/
theorem useApiCall_invariant_counterexample :
    (⟨some 0, true, none⟩ : ApiState Nat) ∈
      reachableStates [ApiOp.exec (Except.ok 0), ApiOp.exec (Except.ok 0)] ∧
    (⟨some 0, true, none⟩ : ApiState Nat).data ≠ none ∧
    (⟨some 0, true, none⟩ : ApiState Nat).loading = true := by
  refine ⟨?_, by decide, rfl⟩
  decide

/-- C9 amended: in every state the hook ever sets (the in-flight state of
execute included), data and error are never both non-null and loading is
false whenever error is non-null; every operation-completion state
additionally has loading false whenever data or error is non-null.  The
sole deviation from the original claim is the in-flight state of an
execute following a successful one, which retains the previous data while
loading is true. -/
theorem useApiCall_invariant {α : Type} (ops : List (ApiOp α)) :
    (∀ s : ApiState α, s ∈ reachableStates ops →
      (s.data = none ∨ s.error = none) ∧ (s.error ≠ none → s.loading = false)) ∧
    ((finalAfter ops).data ≠ none ∨ (finalAfter ops).error ≠ none →
      (finalAfter ops).loading = false) ∧
    ((finalAfter ops).data = none ∨ (finalAfter ops).error = none) := by
  refine ⟨?_, ?_, ?_⟩
  · intro s hs
    rcases List.mem_cons.mp hs with rfl | hs
    · exact stateSafe_init α
    · exact stateSafe_trace ops (initState α) s hs
  · exact (stateIdle_foldl ops (initState α) ⟨fun _ => rfl, Or.inl rfl⟩).1
  · exact (stateIdle_foldl ops (initState α) ⟨fun _ => rfl, Or.inl rfl⟩).2

/-- Witness for C9 (amended) at a concrete operation sequence: after one
successful execute the completed state has loading false, and the
successful completion state reachable in the trace has a null error. -/
theorem useApiCall_invariant_witness :
    (finalAfter [ApiOp.exec (Except.ok (0 : Nat))]).loading = false ∧
    ((⟨some 0, false, none⟩ : ApiState Nat).data = none ∨
      (⟨some 0, false, none⟩ : ApiState Nat).error = none) :=
  ⟨(useApiCall_invariant [ApiOp.exec (Except.ok (0 : Nat))]).2.1 (Or.inl (by decide)),
    ((useApiCall_invariant [ApiOp.exec (Except.ok (0 : Nat))]).1
      ⟨some 0, false, none⟩ (by decide)).1⟩

/-- The fixed tier tokens, ordered G up to SS, stored upper-case. -/
def tierTokens : List String :=
  ["G", "F", "E", "D", "C", "B", "A", "S", "SS"]

/-- Modelled from the spec: the Markup Parser's rank extraction (the
backend parser is not in the snapshot).  The located tier indicator text is
compared case-insensitively against the fixed tier tokens and stored
upper-case; the rank is absent when no indicator is found. -/
def extractRank (indicator : Option String) : Option String :=
  match indicator with
  | none => none
  | some s => if upperStr s ∈ tierTokens then some (upperStr s) else none

/-- Embedding of RankDisplay (RankDisplay.jsx): a falsy rank renders
nothing, otherwise the rank value shown is rank.toUpperCase(). -/
def rankDisplayValue (rank : Option String) : Option String :=
  match rank with
  | none => none
  | some r => if r = "" then none else some (upperStr r)

theorem tierTokens_upper : ∀ t ∈ tierTokens, upperStr t = t ∧ t ≠ "" := by
  decide

/-- C6: whenever rank extraction yields a value, that value is one of the
fixed tier tokens, already upper-case, equal to the upper-casing of the
source indicator text; and RankDisplay presents exactly that upper-cased
value to the user. -/
theorem overallRank_upper (s r : String) (h : extractRank (some s) = some r) :
    r ∈ tierTokens ∧ upperStr r = r ∧ r = upperStr s ∧
    rankDisplayValue (some r) = some r := by
  have h' : (if upperStr s ∈ tierTokens then some (upperStr s) else none) =
      some r := h
  by_cases hc : upperStr s ∈ tierTokens
  · rw [if_pos hc] at h'
    have hr : upperStr s = r := Option.some.inj h'
    subst hr
    obtain ⟨hid, hne⟩ := tierTokens_upper (upperStr s) hc
    refine ⟨hc, hid, rfl, ?_⟩
    show (if upperStr s = "" then none else some (upperStr (upperStr s))) =
      some (upperStr s)
    rw [if_neg hne, hid]
  · rw [if_neg hc] at h'
    cases h'

/-- Witness for C6 at a concrete indicator: the lower-case indicator "s"
extracts as the token "S" and is displayed as "S". -/
theorem overallRank_upper_witness :
    extractRank (some "s") = some "S" ∧
    rankDisplayValue (some "S") = some "S" :=
  ⟨by decide, (overallRank_upper "s" "S" (by decide)).2.2.2⟩

/-- One raw training-event block located in the markup.  Modelled from the
spec: each block carries a name, condition text and effect text, already
reduced to plain trimmed text. -/
structure RawBlock where
  name : String
  conditions : String
  effects : String
deriving DecidableEq, Repr

/-- Modelled from the spec: event extraction maps every located block to an
EventRecord and drops blocks with an empty name. -/
def extractEvents (blocks : List RawBlock) : List EventRecord :=
  (blocks.map fun b => EventRecord.mk b.name b.conditions b.effects).filter
    fun e => !(e.name == "")

/-- One element of the events prop as the frontend receives it: either a
single event record or a one-level-nested array of event records. -/
inductive EventItem where
  | single (e : EventRecord)
  | nested (es : List EventRecord)
deriving DecidableEq, Repr

/-- One-level flattening of the events prop, the embedding of
JavaScript's events.flat(). -/
def flat1 (l : List EventItem) : List EventRecord :=
  l.foldr
    (fun i acc =>
      match i with
      | .single e => e :: acc
      | .nested es => es ++ acc)
    []

/-- Result of rendering the EventList component: the no-events paragraph,
or one section per event in order. -/
inductive EventListRender (α : Type) where
  | noEvents
  | sections (xs : List α)
deriving DecidableEq, Repr

/-- Embedding of EventList (frontend component): a missing or empty events
prop renders the no-events paragraph; otherwise the component flattens the
array one level and renders one section per flattened event, in order. -/
def eventListRender (events : Option (List EventItem)) :
    EventListRender EventRecord :=
  match events with
  | none => .noEvents
  | some es => if es.isEmpty then .noEvents else .sections (flat1 es)

/-- The event sections an EventList render shows, in order (empty for the
no-events paragraph). -/
def renderSections : EventListRender EventRecord → List EventRecord
  | .noEvents => []
  | .sections xs => xs

/-- Result of rendering the RaceList component: nothing (null), or a grid
with one card per match in order. -/
inductive RaceListRender (α : Type) where
  | nothing
  | grid (rows : List α)
deriving DecidableEq, Repr

/-- Embedding of RaceList (frontend component): a missing or empty races
prop renders null; otherwise a grid with one card per match, in order. -/
def raceListRender {α : Type} (races : Option (List α)) : RaceListRender α :=
  match races with
  | none => .nothing
  | some rs => if rs.isEmpty then .nothing else .grid rs

/-- C7: markup with zero training-event blocks yields an empty event list,
the Matcher on that empty list yields an empty match list, and the
consumers render the empty-state paragraph (EventList) and nothing
(RaceList) — neither is an error. -/
theorem empty_markup_pipeline (catalog : List RaceDescriptor) :
    extractEvents [] = [] ∧
    matchRaces (extractEvents []) catalog = [] ∧
    eventListRender (some []) = EventListRender.noEvents ∧
    eventListRender none = EventListRender.noEvents ∧
    @raceListRender RaceMatch (some []) = RaceListRender.nothing ∧
    @raceListRender RaceMatch none = RaceListRender.nothing :=
  ⟨rfl, rfl, rfl, rfl, rfl, rfl⟩

/-- C10: EventList renders exactly the one-level flattening of its events
prop — one section per flattened event, in flattened order — normalizing
the nested shape itself rather than requiring a flat sequence, and renders
no section for an absent prop. -/
theorem eventList_flattening (es : List EventItem) :
    renderSections (eventListRender (some es)) = flat1 es ∧
    renderSections (eventListRender none) = [] := by
  refine ⟨?_, rfl⟩
  cases es with
  | nil => rfl
  | cons i is => rfl

end UmaScrape
